import Mathlib

/-!
Shallow embedding of the CardFile application's core model, translated from
`card.py` and `cardfile.py`: the `Card` record, the `CardFile` collection
manager with its cursor, the search / navigation algorithms, and the JSON
(de)serialization pipeline used by load/save.  External collaborators
(the filesystem, Python's `json` module, `datetime.fromisoformat` /
`datetime.isoformat`, the wall clock) are passed in explicitly as function
parameters, so all definitions are total and executable.
-/

namespace CardfileModel

/-- Timestamps model `datetime` instants as abstract natural numbers; the
code never inspects a timestamp beyond storing, copying, formatting and
parsing it. -/
abbrev Timestamp := Nat

/-- Embedding of the `Card` dataclass of `card.py`.  The extra `oid` field
models Python object identity (`id(obj)`); it is a bookkeeping tag assigned
freshly at each construction and does not participate in dataclass equality
`==` (see `cardEq`). -/
structure Card where
  title : String
  content : String
  created : Timestamp
  modified : Timestamp
  oid : Nat
deriving DecidableEq

/-- Removal of leading and trailing whitespace from a character sequence. -/
def trimList (l : List Char) : List Char :=
  ((l.dropWhile Char.isWhitespace).reverse.dropWhile Char.isWhitespace).reverse

/-- Models Python `str.strip()` (no arguments): remove leading and trailing
whitespace.  (Python strips a slightly larger whitespace class than
`Char.isWhitespace`; the difference is immaterial to the inputs the
specification talks about.) -/
def pyStrip (s : String) : String := String.mk (trimList s.data)

/-- Models Python `str.lower()` : lower-case every character.  (`Char.toLower`
lowers the ASCII range; Python's `str.lower` is its Unicode extension.) -/
def pyLower (s : String) : String := String.mk (s.data.map Char.toLower)

/-- Python's lexicographic string comparison `a <= b`, by code point, as a
structurally recursive Boolean function on the underlying character
sequences. -/
def lexLE : List Char → List Char → Bool
  | [], _ => true
  | _ :: _, [] => false
  | a :: as, b :: bs => if a = b then lexLE as bs else decide (a < b)

/-- Python dataclass equality `==` on `Card`: field-by-field comparison of
the four data fields.  Object identity (`oid`) does not participate. -/
def cardEq (a b : Card) : Bool :=
  a.title == b.title && a.content == b.content &&
    a.created == b.created && a.modified == b.modified

/-- The title coercion performed by `Card.__post_init__`:
`if not self.title.strip(): self.title = "Untitled"`.  Note that a title
whose strip is non-empty is kept verbatim (it is NOT replaced by its
stripped form). -/
def coerceTitle (t : String) : String := if pyStrip t = "" then "Untitled" else t

/-- Card construction: the dataclass `__init__` immediately followed by
`__post_init__`.  In `Card(title=t, content=c)` both timestamps default to
`datetime.now()`; callers of `mkCard` pass that clock value explicitly. -/
def mkCard (title content : String) (created modified : Timestamp) (oid : Nat) : Card :=
  { title := coerceTitle title, content := content, created := created,
    modified := modified, oid := oid }

/-- Model of the JSON values produced by Python's `json.loads`. -/
inductive JValue where
  | str (s : String)
  | num (n : Int)
  | jbool (b : Bool)
  | jnull
  | arr (elems : List JValue)
  | obj (fields : List (String × JValue))

/-- A JSON value viewed as a Python `str`, `none` for any other runtime
type (where Python code that requires a string raises `TypeError` /
`AttributeError`). -/
def asStr : JValue → Option String
  | .str s => some s
  | _ => none

/-- Python `dict.get(k)` on a parsed JSON object.  `json.loads` keeps the
last binding of a duplicated key, so lookup returns the last binding. -/
def jGet (fields : List (String × JValue)) (k : String) : Option JValue :=
  (fields.reverse.find? (fun kv => kv.1 == k)).map (fun kv => kv.2)

/-- Evaluation of
`datetime.fromisoformat(data[k]) if k in data else datetime.now()` in
`Card.from_dict`: an absent field defaults to the clock `now`; a present
field must be a string (`TypeError` otherwise) that `fromisoformat`
accepts (`ValueError` otherwise); the parser `parseIso` models
`datetime.fromisoformat` and is passed in explicitly. -/
def parseTime (parseIso : String → Option Timestamp) (now : Timestamp) :
    Option JValue → Option Timestamp
  | none => some now
  | some v =>
    match asStr v with
    | none => none
    | some s => parseIso s

/-- Embedding of `Card.from_dict` (`card.py`).  `none` models an exception
escaping `from_dict` (`AttributeError` on a non-dict record or a non-string
title, `TypeError`/`ValueError` from `fromisoformat`).  Python performs no
type check on `content`; documents whose `content` field is a non-string
(unreachable from `save_to_file` output) are treated as a format failure
here, matching the typed field.  The fresh `oid` models the identity of the
newly allocated object. -/
def Card.from_dict (parseIso : String → Option Timestamp) (now : Timestamp)
    (oid : Nat) (data : JValue) : Option Card :=
  match data with
  | .obj fields =>
    match asStr ((jGet fields "title").getD (.str "Untitled")) with
    | none => none
    | some title =>
      match asStr ((jGet fields "content").getD (.str "")) with
      | none => none
      | some content =>
        match parseTime parseIso now (jGet fields "created") with
        | none => none
        | some created =>
          match parseTime parseIso now (jGet fields "modified") with
          | none => none
          | some modified => some (mkCard title content created modified oid)
  | _ => none

/-- Embedding of `Card.to_dict` (`card.py`): the serialized record, with
`isoFormat` modelling `datetime.isoformat`. -/
def Card.to_dict (isoFormat : Timestamp → String) (c : Card) : JValue :=
  .obj [("title", .str c.title), ("content", .str c.content),
        ("created", .str (isoFormat c.created)),
        ("modified", .str (isoFormat c.modified))]

/-- Embedding of the `CardFile` manager state (`cardfile.py.__init__`).
`current_index` is a Python `int`, hence `Int`.  `next_oid` is the identity
supply for newly constructed cards (a model of Python's allocator). -/
structure CardFile where
  cards : List Card
  current_index : Int
  filepath : Option String
  modified : Bool
  next_oid : Nat
deriving DecidableEq

/-- The freshly constructed manager: `CardFile()`. -/
def CardFile.init : CardFile :=
  { cards := [], current_index := 0, filepath := none, modified := false, next_oid := 0 }

/-- The effective index of Python list indexing `l[i]`: negative indices
count from the end. -/
def pyIdx (l : List Card) (i : Int) : Int :=
  if i < 0 then (l.length : Int) + i else i

/-- Python list indexing `l[i]`, including negative-index wrap-around;
`none` models an `IndexError` (which never occurs on the states the manager
actually reaches). -/
def pyGetElem (l : List Card) (i : Int) : Option Card :=
  if 0 ≤ pyIdx l i ∧ pyIdx l i < (l.length : Int) then l[(pyIdx l i).toNat]? else none

/-- The `current_card` property: `None` when the list is empty, otherwise
`self.cards[self.current_index]`. -/
def CardFile.current_card (st : CardFile) : Option Card :=
  if st.cards.isEmpty then none else pyGetElem st.cards st.current_index

/-- The sort key of `sort_cards`: `lambda c: c.title.lower()`. -/
def sortKey (c : Card) : String := pyLower c.title

/-- The sort relation induced by the key: Python string `<=` on the
lower-cased titles. -/
def cardLE (a b : Card) : Prop := lexLE (sortKey a).data (sortKey b).data = true

instance : DecidableRel cardLE :=
  fun a b => inferInstanceAs (Decidable (lexLE (sortKey a).data (sortKey b).data = true))

instance : IsTotal Card cardLE := by
  constructor
  intro a b
  show lexLE (sortKey a).data (sortKey b).data = true ∨
    lexLE (sortKey b).data (sortKey a).data = true
  generalize (sortKey a).data = as
  generalize (sortKey b).data = bs
  induction as generalizing bs with
  | nil => exact Or.inl rfl
  | cons a1 as ih =>
    cases bs with
    | nil => exact Or.inr rfl
    | cons b1 bs =>
      by_cases hab : a1 = b1
      · subst hab
        simpa [lexLE] using ih bs
      · rcases lt_or_gt_of_ne hab with hlt | hgt
        · exact Or.inl (by simp [lexLE, hab, hlt])
        · exact Or.inr (by simp [lexLE, Ne.symm hab, hgt])

instance : IsTrans Card cardLE := by
  constructor
  intro a b c
  show lexLE (sortKey a).data (sortKey b).data = true →
    lexLE (sortKey b).data (sortKey c).data = true →
    lexLE (sortKey a).data (sortKey c).data = true
  generalize (sortKey a).data = as
  generalize (sortKey b).data = bs
  generalize (sortKey c).data = cs
  induction as generalizing bs cs with
  | nil => intro _ _; rfl
  | cons a1 as ih =>
    intro h1 h2
    cases bs with
    | nil => simp [lexLE] at h1
    | cons b1 bs =>
      cases cs with
      | nil => simp [lexLE] at h2
      | cons c1 cs =>
        by_cases hab : a1 = b1
        · subst hab
          by_cases hbc : a1 = c1
          · subst hbc
            simp only [lexLE, if_pos rfl] at h1 h2 ⊢
            exact ih bs cs h1 h2
          · simp only [lexLE, if_pos rfl] at h1
            simpa [lexLE, hbc] using h2
        · by_cases hbc : b1 = c1
          · subst hbc
            simpa [lexLE, hab] using h1
          · simp only [lexLE, if_neg hab, decide_eq_true_eq] at h1
            simp only [lexLE, if_neg hbc, decide_eq_true_eq] at h2
            have hac : a1 < c1 := lt_trans h1 h2
            simp [lexLE, ne_of_lt hac, hac]

/-- Python `list.index(c)`: the index of the first element comparing `==`
to `c` (for dataclasses, `cardEq`).  An absent element makes Python raise
`ValueError`; the model then returns `l.length`, which the callers in
`cardfile.py` never hit because they only look up members. -/
def listIndex : List Card → Card → Nat
  | [], _ => 0
  | x :: rest, c => if cardEq x c then 0 else listIndex rest c + 1

/-- Embedding of `CardFile.sort_cards`.  Python's `list.sort` is a stable
sort; a stable sort with respect to a total preorder (here: comparison of
the `sortKey`) computes a unique result, so the structurally recursive
`List.insertionSort` (also stable) is an exact model of it.  When the list
is non-empty the previously current card is looked up again by `==` in the
sorted list.  (If `current_index` were out of bounds Python would raise
inside the `current_card` property; that state is unreachable, and the
model then simply skips the relocation.) -/
def CardFile.sort_cards (st : CardFile) : CardFile :=
  if st.cards.isEmpty then st
  else
    match st.current_card with
    | some c =>
      let sorted := List.insertionSort cardLE st.cards
      { st with cards := sorted, current_index := (listIndex sorted c : Int) }
    | none => { st with cards := List.insertionSort cardLE st.cards }

/-- The append step `self.cards.append(card)` (the fresh identity supply
advances with the allocation of the card being appended). -/
def appendCard (st : CardFile) (card : Card) : CardFile :=
  { st with cards := st.cards ++ [card], next_oid := st.next_oid + 1 }

/-- The cursor/dirty step shared by `add_card` and `duplicate_card`:
`self.current_index = self.cards.index(card); self.modified = True`. -/
def placeCursorAt (st : CardFile) (card : Card) : CardFile :=
  { st with current_index := (listIndex st.cards card : Int), modified := true }

/-- Embedding of `CardFile.add_card`: construct, append, `sort_cards`,
point the cursor at `self.cards.index(card)`, mark dirty, return the
card. -/
def CardFile.add_card (st : CardFile) (now : Timestamp)
    (title content : String) : Card × CardFile :=
  (mkCard title content now now st.next_oid,
    placeCursorAt ((appendCard st (mkCard title content now now st.next_oid)).sort_cards)
      (mkCard title content now now st.next_oid))

/-- Embedding of `CardFile.delete_card`: `index` of `none` models the
Python default argument `None` (target the current card). -/
def CardFile.delete_card (st : CardFile) (index : Option Int) : Bool × CardFile :=
  if st.cards.isEmpty then (false, st)
  else
    let idx := index.getD st.current_index
    if 0 ≤ idx ∧ idx < (st.cards.length : Int) then
      let cards1 := st.cards.eraseIdx idx.toNat
      let ci :=
        if cards1.isEmpty then 0
        else min st.current_index ((cards1.length : Int) - 1)
      (true, { st with cards := cards1, current_index := ci, modified := true })
    else (false, st)

/-- Embedding of `CardFile.duplicate_card`: on a valid target, build
`Card(title=f"{original.title} (Copy)", content=original.content)` with
fresh timestamps (`now`) and a fresh identity, append, `sort_cards`, point
the cursor at `self.cards.index(new_card)`, mark dirty, return the new
card.  (The `none` arm of the `pyGetElem` match is unreachable: the range
guard makes the lookup `self.cards[idx]` succeed.) -/
def CardFile.duplicate_card (st : CardFile) (now : Timestamp)
    (index : Option Int) : Option Card × CardFile :=
  if st.cards.isEmpty then (none, st)
  else
    if 0 ≤ index.getD st.current_index ∧
        index.getD st.current_index < (st.cards.length : Int) then
      match pyGetElem st.cards (index.getD st.current_index) with
      | some original =>
        (some (mkCard (original.title ++ " (Copy)") original.content now now st.next_oid),
          placeCursorAt
            ((appendCard st
              (mkCard (original.title ++ " (Copy)") original.content now now st.next_oid)).sort_cards)
            (mkCard (original.title ++ " (Copy)") original.content now now st.next_oid))
      | none => (none, st)
    else (none, st)

/-- Embedding of `CardFile.navigate_to`. -/
def CardFile.navigate_to (st : CardFile) (index : Int) : Bool × CardFile :=
  if 0 ≤ index ∧ index < (st.cards.length : Int) then
    (true, { st with current_index := index })
  else (false, st)

/-- Embedding of `CardFile.navigate_next` (Python `len(self.cards) - 1` is
`Int` arithmetic: `-1` on an empty list). -/
def CardFile.navigate_next (st : CardFile) : Bool × CardFile :=
  if st.current_index < (st.cards.length : Int) - 1 then
    (true, { st with current_index := st.current_index + 1 })
  else (false, st)

/-- Embedding of `CardFile.navigate_previous`. -/
def CardFile.navigate_previous (st : CardFile) : Bool × CardFile :=
  if st.current_index > 0 then
    (true, { st with current_index := st.current_index - 1 })
  else (false, st)

/-- Python substring test `needle in hay` on lists of characters. -/
def infixOf (needle : List Char) : List Char → Bool
  | [] => needle.isEmpty
  | h :: t => needle.isPrefixOf (h :: t) || infixOf needle t

/-- Python substring test `needle in hay` on strings. -/
def strContains (hay needle : String) : Bool := infixOf needle.data hay.data

/-- The enumeration loop of `CardFile.search`, carrying the running index:
`if query in title.lower(): append(i) elif search_content and query in
content.lower(): append(i)`. -/
def searchAux (q : String) (sc : Bool) : Nat → List Card → List Nat
  | _, [] => []
  | i, c :: rest =>
    if strContains (pyLower c.title) q then i :: searchAux q sc (i + 1) rest
    else if sc && strContains (pyLower c.content) q then i :: searchAux q sc (i + 1) rest
    else searchAux q sc (i + 1) rest

/-- The per-card match condition of the search loop, as a single Boolean:
the `if`/`elif` pair of the loop appends `i` exactly when this holds of the
card (with the already lower-cased query `q`). -/
def matchesCard (q : String) (sc : Bool) (c : Card) : Bool :=
  strContains (pyLower c.title) q || (sc && strContains (pyLower c.content) q)

/-- Embedding of `CardFile.search`: the query is lower-cased once, then the
cards are scanned in order. -/
def CardFile.search (st : CardFile) (query : String) (searchContent : Bool) : List Nat :=
  searchAux (pyLower query) searchContent 0 st.cards

/-- The method view of `search`: the body performs no assignment to `self`,
so the post-state equals the pre-state. -/
def CardFile.searchM (st : CardFile) (query : String) (searchContent : Bool) :
    List Nat × CardFile :=
  (st.search query searchContent, st)

/-- Embedding of `CardFile.find_next`: run `search(query)` (the
`search_content` default `True`), return the first result `> from_index`,
else wrap to the first result `<= from_index`, else nothing. -/
def CardFile.find_next (st : CardFile) (query : String) (fromIndex : Int) : Option Nat :=
  let results := st.search query true
  match results.find? (fun idx => decide (fromIndex < Int.ofNat idx)) with
  | some idx => some idx
  | none => results.find? (fun idx => decide (Int.ofNat idx ≤ fromIndex))

/-- The method view of `find_next`: the body performs no assignment to
`self`, so the post-state equals the pre-state. -/
def CardFile.find_nextM (st : CardFile) (query : String) (fromIndex : Int) :
    Option Nat × CardFile :=
  (st.find_next query fromIndex, st)

/-- Embedding of `CardFile.new_file`. -/
def CardFile.new_file (st : CardFile) : CardFile :=
  { st with cards := [], current_index := 0, filepath := none, modified := false }

/-- Embedding of `CardFile.save_to_file`: no resolvable path fails; any
write/encoding failure of the external filesystem (`writeOk = false`) is
caught and reported as `false` with the state unchanged; on success the
resolved path is stored and the dirty flag cleared. -/
def CardFile.save_to_file (st : CardFile) (filepath : Option String)
    (writeOk : Bool) : Bool × CardFile :=
  match filepath.orElse (fun _ => st.filepath) with
  | none => (false, st)
  | some p =>
    if writeOk then (true, { st with filepath := some p, modified := false })
    else (false, st)

/-- Deserialization of the record list: the comprehension
`[Card.from_dict(cd) for cd in ...]`, allocating consecutive fresh
identities; the whole comprehension fails if any element fails, and in
Python the failure happens before `self.cards` is assigned. -/
def parseCards (parseIso : String → Option Timestamp) (now : Timestamp) :
    Nat → List JValue → Option (List Card)
  | _, [] => some []
  | oid, d :: rest =>
    match Card.from_dict parseIso now oid d with
    | none => none
    | some c =>
      match parseCards parseIso now (oid + 1) rest with
      | none => none
      | some cs => some (c :: cs)

/-- Python iteration over the value of the `"cards"` field: a JSON array
iterates its elements; a string iterates its one-character substrings; a
dict iterates its keys; every other value raises `TypeError`
(not iterable). -/
def iterElems : JValue → Option (List JValue)
  | .arr xs => some xs
  | .str s => some (s.data.map (fun ch => JValue.str (String.mk [ch])))
  | .obj kvs => some (kvs.map (fun kv => JValue.str kv.1))
  | _ => none

/-- Embedding of `CardFile.load_from_file`.  The external collaborators are
explicit: `fs` models `Path.read_text` (`none` = any read failure),
`jsonParse` models `json.loads` (`none` = `JSONDecodeError`), `parseIso`
models `datetime.fromisoformat`, `now` the clock.  Every failure point of
the Python body occurs before the first assignment to `self` (the list
comprehension is fully evaluated before `self.cards = ...`), so each
failure branch returns the untouched pre-state; the catch-all `except`
turns every such failure into a `False` return. -/
def CardFile.load_from_file (jsonParse : String → Option JValue)
    (parseIso : String → Option Timestamp) (now : Timestamp)
    (fs : String → Option String) (st : CardFile) (filepath : String) :
    Bool × CardFile :=
  match fs filepath with
  | none => (false, st)
  | some text =>
    match jsonParse text with
    | none => (false, st)
    | some data =>
      match data with
      | .obj fields =>
        match iterElems ((jGet fields "cards").getD (.arr [])) with
        | none => (false, st)
        | some elems =>
          match parseCards parseIso now st.next_oid elems with
          | none => (false, st)
          | some cs =>
            let st1 : CardFile :=
              { st with cards := cs, current_index := 0, filepath := some filepath,
                        modified := false, next_oid := st.next_oid + cs.length }
            (true, st1.sort_cards)
      | _ => (false, st)

/-- The states reachable from a freshly constructed manager by any sequence
of `CardFile` operations (with arbitrary inputs and arbitrary behavior of
the external collaborators). -/
inductive Reachable : CardFile → Prop
  | init : Reachable CardFile.init
  | add {st} (h : Reachable st) (now : Timestamp) (title content : String) :
      Reachable (st.add_card now title content).2
  | delete {st} (h : Reachable st) (index : Option Int) :
      Reachable (st.delete_card index).2
  | dup {st} (h : Reachable st) (now : Timestamp) (index : Option Int) :
      Reachable (st.duplicate_card now index).2
  | sort {st} (h : Reachable st) : Reachable st.sort_cards
  | navTo {st} (h : Reachable st) (i : Int) : Reachable (st.navigate_to i).2
  | navNext {st} (h : Reachable st) : Reachable st.navigate_next.2
  | navPrev {st} (h : Reachable st) : Reachable st.navigate_previous.2
  | newFile {st} (h : Reachable st) : Reachable st.new_file
  | save {st} (h : Reachable st) (fp : Option String) (ok : Bool) :
      Reachable (st.save_to_file fp ok).2
  | load {st} (h : Reachable st) (jp : String → Option JValue)
      (pi : String → Option Timestamp) (now : Timestamp)
      (fs : String → Option String) (p : String) :
      Reachable (CardFile.load_from_file jp pi now fs st p).2

/-- A serialized record with two field-identical cards (title `"A"`, no
content, both timestamps parsing to `0`). -/
def c3rec : JValue := .obj [("title", .str "A"), ("created", .str "0"), ("modified", .str "0")]

/-- A document whose `"cards"` array holds the same record twice. -/
def c3doc : JValue := .obj [("cards", .arr [c3rec, c3rec])]

/-- A `json.loads` behavior producing `c3doc` for any text. -/
def c3jp : String → Option JValue := fun _ => some c3doc

/-- A `fromisoformat` behavior mapping the timestamp text `"0"` to `0`. -/
def c3pi : String → Option Timestamp := fun s => if s = "0" then some 0 else none

/-- A filesystem on which every read succeeds. -/
def c3fs : String → Option String := fun _ => some ""

/-- The state reached by loading the duplicate-record document and
navigating to the second of the two field-identical cards. -/
def c3St : CardFile :=
  ((CardFile.init.load_from_file c3jp c3pi 0 c3fs "/f").2.navigate_to 1).2

/-- The first loaded card (identity `0`). -/
def c3card0 : Card := mkCard "A" "" 0 0 0

/-- The second loaded card (identity `1`): field-identical to `c3card0`
but a distinct object. -/
def c3card1 : Card := mkCard "A" "" 0 0 1

/-- A serialized record titled `"Idea"`. -/
def c8rec1 : JValue := .obj [("title", .str "Idea"), ("created", .str "0"), ("modified", .str "0")]

/-- A serialized record titled `"Idea (Copy)"` with timestamps `5`. -/
def c8rec2 : JValue :=
  .obj [("title", .str "Idea (Copy)"), ("created", .str "5"), ("modified", .str "5")]

/-- A document holding the `"Idea"` and `"Idea (Copy)"` records. -/
def c8doc : JValue := .obj [("cards", .arr [c8rec1, c8rec2])]

/-- A `json.loads` behavior producing `c8doc` for any text. -/
def c8jp : String → Option JValue := fun _ => some c8doc

/-- A `fromisoformat` behavior for the timestamp texts `"0"` and `"5"`. -/
def c8pi : String → Option Timestamp :=
  fun s => if s = "0" then some 0 else if s = "5" then some 5 else none

/-- A filesystem on which every read succeeds. -/
def c8fs : String → Option String := fun _ => some ""

/-- The state reached by loading the `"Idea"` / `"Idea (Copy)"` document;
the cursor rests on `"Idea"`. -/
def c8St : CardFile := (CardFile.init.load_from_file c8jp c8pi 0 c8fs "/f").2

/-- The pre-existing `"Idea (Copy)"` card (identity `1`). -/
def c8Old : Card := mkCard "Idea (Copy)" "" 5 5 1

/-- The card created by duplicating `"Idea"` at clock `5` (identity `2`):
field-identical to `c8Old` but a distinct object. -/
def c8New : Card := mkCard "Idea (Copy)" "" 5 5 2

/-- A five-card state whose titles match the query `"zz"` exactly at
indices `1` and `4`. -/
def c6St : CardFile :=
  { cards := [mkCard "a" "" 0 0 0, mkCard "zz1" "" 0 0 1, mkCard "b" "" 0 0 2,
              mkCard "c" "" 0 0 3, mkCard "zz2" "" 0 0 4],
    current_index := 0, filepath := none, modified := false, next_oid := 5 }

/-- A non-trivial prior state for exercising load failure: one card, a
stored path, a set dirty flag. -/
def w5st : CardFile :=
  { cards := [mkCard "A" "x" 0 0 0], current_index := 0, filepath := some "/old",
    modified := true, next_oid := 1 }

/-- A concrete `datetime.isoformat` behavior for the round-trip witness
(an injective rendering of the timestamp). -/
def w9iso : Timestamp → String := fun t => String.mk (List.replicate t 'x')

/-- The matching `datetime.fromisoformat` behavior: inverse of `w9iso`. -/
def w9parse : String → Option Timestamp := fun s => some s.data.length

/-- A concrete card for the round-trip witness. -/
def w9card : Card := { title := "Hello", content := "World", created := 3, modified := 7, oid := 0 }

/-- A one-card state titled `"Idea"`, for the duplicate witness. -/
def w8st : CardFile := (CardFile.init.add_card 0 "Idea" "x").2

/-- The duplicate that `w8st.duplicate_card 1 none` creates. -/
def w8card : Card := mkCard "Idea (Copy)" "x" 1 1 1

/-- The cursor-bounds invariant claimed by the specification. -/
def cursorOK (st : CardFile) : Prop :=
  (st.cards = [] → st.current_index = 0) ∧
  (st.cards ≠ [] → 0 ≤ st.current_index ∧ st.current_index < (st.cards.length : Int))

theorem cardEq_refl (c : Card) : cardEq c c = true := by
  simp [cardEq]

theorem listIndex_lt_length {l : List Card} {c : Card}
    (h : ∃ x ∈ l, cardEq x c = true) : listIndex l c < l.length := by
  induction l with
  | nil => rcases h with ⟨x, hx, _⟩; cases hx
  | cons a t ih =>
    by_cases ha : cardEq a c
    · simp [listIndex, ha]
    · rcases h with ⟨x, hx, hxc⟩
      rcases List.mem_cons.mp hx with rfl | hxt
      · exact absurd hxc ha
      · have := ih ⟨x, hxt, hxc⟩
        simp only [listIndex, if_neg ha, List.length_cons]
        omega

theorem getElem?_listIndex {l : List Card} {c : Card} (hc : c ∈ l)
    (huniq : ∀ x ∈ l, cardEq x c = true → x = c) :
    l[listIndex l c]? = some c := by
  induction l with
  | nil => cases hc
  | cons a t ih =>
    by_cases ha : cardEq a c
    · have hac : a = c := huniq a (List.mem_cons_self a t) ha
      subst hac
      simp [listIndex, cardEq_refl]
    · have hct : c ∈ t := by
        rcases List.mem_cons.mp hc with rfl | h
        · exact absurd (cardEq_refl c) ha
        · exact h
      have huniq' : ∀ x ∈ t, cardEq x c = true → x = c :=
        fun x hx => huniq x (List.mem_cons_of_mem a hx)
      simp [listIndex, ha, ih hct huniq']

theorem sort_cards_cards (st : CardFile) (h : st.cards ≠ []) :
    (st.sort_cards).cards = List.insertionSort cardLE st.cards := by
  unfold CardFile.sort_cards
  rw [if_neg (by simpa using h)]
  cases st.current_card <;> rfl

theorem sort_cards_of_empty (st : CardFile) (h : st.cards = []) :
    st.sort_cards = st := by
  unfold CardFile.sort_cards
  rw [if_pos (by simpa using h)]

theorem sorted_sort_cards (st : CardFile) :
    List.Sorted cardLE (st.sort_cards).cards := by
  by_cases h : st.cards = []
  · rw [sort_cards_of_empty st h, h]; exact List.sorted_nil
  · rw [sort_cards_cards st h]; exact List.sorted_insertionSort cardLE st.cards

theorem length_sort_cards (st : CardFile) :
    (st.sort_cards).cards.length = st.cards.length := by
  by_cases h : st.cards = []
  · rw [sort_cards_of_empty st h]
  · rw [sort_cards_cards st h, List.length_insertionSort]

theorem mem_sort_cards {st : CardFile} {x : Card} :
    x ∈ (st.sort_cards).cards ↔ x ∈ st.cards := by
  by_cases h : st.cards = []
  · rw [sort_cards_of_empty st h]
  · rw [sort_cards_cards st h]; exact List.mem_insertionSort cardLE

theorem current_index_sort_cards {st : CardFile} {c : Card}
    (hc : st.current_card = some c) :
    (st.sort_cards).current_index =
      (listIndex (List.insertionSort cardLE st.cards) c : Int) := by
  have hne : ¬ st.cards.isEmpty := by
    intro h
    rw [CardFile.current_card, if_pos h] at hc
    cases hc
  unfold CardFile.sort_cards
  rw [if_neg hne, hc]

theorem mem_of_pyGetElem {l : List Card} {i : Int} {c : Card}
    (h : pyGetElem l i = some c) : c ∈ l := by
  rw [pyGetElem] at h
  split at h
  · exact List.getElem?_mem h
  · cases h

theorem mem_of_current_card {st : CardFile} {c : Card}
    (hc : st.current_card = some c) : c ∈ st.cards := by
  rw [CardFile.current_card] at hc
  split at hc
  · cases hc
  · exact mem_of_pyGetElem hc

theorem current_card_of_bounds {st : CardFile}
    (h0 : 0 ≤ st.current_index) (h1 : st.current_index < (st.cards.length : Int)) :
    st.current_card = st.cards[st.current_index.toNat]? := by
  have hne : ¬ st.cards.isEmpty := by
    rw [List.isEmpty_iff]
    intro h
    rw [h] at h1
    simp only [List.length_nil, Nat.cast_zero] at h1
    omega
  have hj : pyIdx st.cards st.current_index = st.current_index := by
    rw [pyIdx, if_neg (by omega)]
  rw [CardFile.current_card, if_neg hne, pyGetElem, hj, if_pos ⟨h0, h1⟩]

theorem cursorOK_sort {st : CardFile} (h : cursorOK st) : cursorOK st.sort_cards := by
  by_cases hemp : st.cards = []
  · rw [sort_cards_of_empty st hemp]; exact h
  · have hb := h.2 hemp
    have hcc : st.current_card = st.cards[st.current_index.toNat]? :=
      current_card_of_bounds hb.1 hb.2
    have hlt : st.current_index.toNat < st.cards.length := by omega
    have hsome : st.current_card = some st.cards[st.current_index.toNat] := by
      rw [hcc, List.getElem?_eq_getElem hlt]
    set c := st.cards[st.current_index.toNat] with hc
    have hmem : c ∈ st.cards := List.getElem_mem hlt
    have hmem' : c ∈ List.insertionSort cardLE st.cards :=
      (List.mem_insertionSort cardLE).mpr hmem
    have hidx : (st.sort_cards).current_index =
        (listIndex (List.insertionSort cardLE st.cards) c : Int) :=
      current_index_sort_cards hsome
    have hlen := length_sort_cards st
    have hcards := sort_cards_cards st hemp
    constructor
    · intro hnil
      rw [hnil] at hlen
      simp only [List.length_nil] at hlen
      exact absurd (List.eq_nil_of_length_eq_zero hlen.symm) hemp
    · intro _
      have hfound : listIndex (List.insertionSort cardLE st.cards) c <
          (List.insertionSort cardLE st.cards).length :=
        listIndex_lt_length ⟨c, hmem', cardEq_refl c⟩
      rw [hidx, hcards]
      constructor
      · exact Int.ofNat_nonneg _
      · exact_mod_cast hfound

theorem placeCursorAt_cards (st : CardFile) (c : Card) :
    (placeCursorAt st c).cards = st.cards := rfl

theorem placeCursorAt_current_index (st : CardFile) (c : Card) :
    (placeCursorAt st c).current_index = (listIndex st.cards c : Int) := rfl

theorem appendCard_cards (st : CardFile) (c : Card) :
    (appendCard st c).cards = st.cards ++ [c] := rfl

theorem cursorOK_place (st : CardFile) (card : Card) :
    cursorOK (placeCursorAt ((appendCard st card).sort_cards) card) := by
  have hmem : card ∈ ((appendCard st card).sort_cards).cards :=
    mem_sort_cards.mpr (by rw [appendCard_cards]; exact List.mem_append_right _ (List.mem_singleton.mpr rfl))
  have hlen : ((appendCard st card).sort_cards).cards.length = st.cards.length + 1 := by
    rw [length_sort_cards, appendCard_cards, List.length_append, List.length_singleton]
  have hfound : listIndex ((appendCard st card).sort_cards).cards card <
      ((appendCard st card).sort_cards).cards.length :=
    listIndex_lt_length ⟨card, hmem, cardEq_refl card⟩
  constructor
  · intro hnil
    rw [placeCursorAt_cards] at hnil
    rw [hnil] at hlen
    simp at hlen
  · intro _
    rw [placeCursorAt_cards, placeCursorAt_current_index]
    exact ⟨Int.ofNat_nonneg _, by exact_mod_cast hfound⟩

theorem cursorOK_add (st : CardFile) (now : Timestamp) (title content : String) :
    cursorOK ((st.add_card now title content).2) :=
  cursorOK_place st (mkCard title content now now st.next_oid)

theorem cursorOK_delete {st : CardFile} (h : cursorOK st) (index : Option Int) :
    cursorOK ((st.delete_card index).2) := by
  unfold CardFile.delete_card
  by_cases hemp : st.cards.isEmpty
  · rw [if_pos hemp]; exact h
  · rw [if_neg hemp]
    have hne : st.cards ≠ [] := by simpa [List.isEmpty_iff] using hemp
    have hb := h.2 hne
    by_cases hrange : 0 ≤ index.getD st.current_index ∧
        index.getD st.current_index < (st.cards.length : Int)
    · rw [if_pos hrange]
      dsimp only
      have hlen1 : (st.cards.eraseIdx (index.getD st.current_index).toNat).length =
          st.cards.length - 1 := by
        rw [List.length_eraseIdx, if_pos (by omega)]
      by_cases hemp1 : (st.cards.eraseIdx (index.getD st.current_index).toNat).isEmpty
      · rw [if_pos hemp1]
        exact ⟨fun _ => rfl, fun hne1 => absurd (List.isEmpty_iff.mp hemp1) hne1⟩
      · rw [if_neg hemp1]
        have hne1 : st.cards.eraseIdx (index.getD st.current_index).toNat ≠ [] := by
          simpa [List.isEmpty_iff] using hemp1
        have hpos : 0 < (st.cards.eraseIdx (index.getD st.current_index).toNat).length :=
          List.length_pos.mpr hne1
        refine ⟨fun hnil => absurd hnil hne1, fun _ => ?_⟩
        dsimp only
        constructor
        · omega
        · omega
    · rw [if_neg hrange]; exact h

theorem cursorOK_dup {st : CardFile} (h : cursorOK st) (now : Timestamp)
    (index : Option Int) : cursorOK ((st.duplicate_card now index).2) := by
  unfold CardFile.duplicate_card
  by_cases hemp : st.cards.isEmpty
  · rw [if_pos hemp]; exact h
  · rw [if_neg hemp]
    by_cases hrange : 0 ≤ index.getD st.current_index ∧
        index.getD st.current_index < (st.cards.length : Int)
    · rw [if_pos hrange]
      rcases hget : pyGetElem st.cards (index.getD st.current_index) with _ | original
      · exact h
      · exact cursorOK_place st _
    · rw [if_neg hrange]; exact h

theorem cursorOK_navTo {st : CardFile} (h : cursorOK st) (i : Int) :
    cursorOK ((st.navigate_to i).2) := by
  unfold CardFile.navigate_to
  by_cases hrange : 0 ≤ i ∧ i < (st.cards.length : Int)
  · rw [if_pos hrange]
    constructor
    · intro hnil
      rw [hnil] at hrange
      simp only [List.length_nil, Nat.cast_zero] at hrange
      omega
    · intro _; exact hrange
  · rw [if_neg hrange]; exact h

theorem cursorOK_navNext {st : CardFile} (h : cursorOK st) :
    cursorOK st.navigate_next.2 := by
  unfold CardFile.navigate_next
  by_cases hlt : st.current_index < (st.cards.length : Int) - 1
  · rw [if_pos hlt]
    have hne : st.cards ≠ [] := by
      intro hnil
      rw [h.1 hnil, hnil] at hlt
      simp only [List.length_nil, Nat.cast_zero] at hlt
      omega
    have hb := h.2 hne
    refine ⟨fun hnil => absurd hnil hne, fun _ => ?_⟩
    dsimp only
    omega
  · rw [if_neg hlt]; exact h

theorem cursorOK_navPrev {st : CardFile} (h : cursorOK st) :
    cursorOK st.navigate_previous.2 := by
  unfold CardFile.navigate_previous
  by_cases hgt : st.current_index > 0
  · rw [if_pos hgt]
    have hne : st.cards ≠ [] := by
      intro hnil
      rw [h.1 hnil] at hgt
      omega
    have hb := h.2 hne
    refine ⟨fun hnil => absurd hnil hne, fun _ => ?_⟩
    dsimp only
    omega
  · rw [if_neg hgt]; exact h

theorem cursorOK_save {st : CardFile} (h : cursorOK st) (fp : Option String)
    (ok : Bool) : cursorOK ((st.save_to_file fp ok).2) := by
  unfold CardFile.save_to_file
  rcases fp.orElse (fun _ => st.filepath) with _ | p
  · exact h
  · dsimp only
    by_cases hok : ok = true
    · simp only [hok, if_pos]
      exact ⟨h.1, h.2⟩
    · simp only [hok, if_false, Bool.false_eq_true]
      exact h

/-- The two shapes a `load_from_file` call can take: a failure leaving the
state untouched, or a success replacing the card list and re-sorting. -/
theorem load_cases (jp : String → Option JValue) (pi : String → Option Timestamp)
    (now : Timestamp) (fs : String → Option String) (st : CardFile) (p : String) :
    CardFile.load_from_file jp pi now fs st p = (false, st) ∨
    ∃ cs, parseCards pi now st.next_oid cs ≠ none ∧
      CardFile.load_from_file jp pi now fs st p =
        (true, (CardFile.sort_cards
          { st with cards := (parseCards pi now st.next_oid cs).getD [],
                    current_index := 0, filepath := some p, modified := false,
                    next_oid := st.next_oid + ((parseCards pi now st.next_oid cs).getD []).length })) := by
  unfold CardFile.load_from_file
  rcases fs p with _ | text
  · exact Or.inl rfl
  · dsimp only
    rcases jp text with _ | data
    · exact Or.inl rfl
    · dsimp only
      rcases data with s | n | b | _ | elems | fields
      · exact Or.inl rfl
      · exact Or.inl rfl
      · exact Or.inl rfl
      · exact Or.inl rfl
      · exact Or.inl rfl
      · dsimp only
        rcases iterElems ((jGet fields "cards").getD (.arr [])) with _ | elems
        · exact Or.inl rfl
        · dsimp only
          rcases hp : parseCards pi now st.next_oid elems with _ | cs
          · exact Or.inl rfl
          · refine Or.inr ⟨elems, by rw [hp]; exact fun hcon => Option.noConfusion hcon, ?_⟩
            rw [hp]
            rfl

theorem cursorOK_load {st : CardFile} (h : cursorOK st)
    (jp : String → Option JValue) (pi : String → Option Timestamp)
    (now : Timestamp) (fs : String → Option String) (p : String) :
    cursorOK ((CardFile.load_from_file jp pi now fs st p).2) := by
  rcases load_cases jp pi now fs st p with heq | ⟨cs, _, heq⟩
  · rw [heq]; exact h
  · rw [heq]
    refine cursorOK_sort ?_
    constructor
    · intro _; rfl
    · intro hne
      have hpos : 0 < ((parseCards pi now st.next_oid cs).getD []).length :=
        List.length_pos.mpr (by simpa using hne)
      refine ⟨le_refl 0, ?_⟩
      dsimp only
      omega

theorem navigate_to_frame (st : CardFile) (i : Int) :
    ((st.navigate_to i).2).cards = st.cards ∧
    ((st.navigate_to i).2).filepath = st.filepath ∧
    ((st.navigate_to i).2).modified = st.modified ∧
    ((st.navigate_to i).2).next_oid = st.next_oid := by
  unfold CardFile.navigate_to
  split
  · exact ⟨rfl, rfl, rfl, rfl⟩
  · exact ⟨rfl, rfl, rfl, rfl⟩

theorem navigate_next_frame (st : CardFile) :
    (st.navigate_next.2).cards = st.cards ∧
    (st.navigate_next.2).filepath = st.filepath ∧
    (st.navigate_next.2).modified = st.modified ∧
    (st.navigate_next.2).next_oid = st.next_oid := by
  unfold CardFile.navigate_next
  split
  · exact ⟨rfl, rfl, rfl, rfl⟩
  · exact ⟨rfl, rfl, rfl, rfl⟩

theorem navigate_previous_frame (st : CardFile) :
    (st.navigate_previous.2).cards = st.cards ∧
    (st.navigate_previous.2).filepath = st.filepath ∧
    (st.navigate_previous.2).modified = st.modified ∧
    (st.navigate_previous.2).next_oid = st.next_oid := by
  unfold CardFile.navigate_previous
  split
  · exact ⟨rfl, rfl, rfl, rfl⟩
  · exact ⟨rfl, rfl, rfl, rfl⟩

theorem save_to_file_cards (st : CardFile) (fp : Option String) (ok : Bool) :
    ((st.save_to_file fp ok).2).cards = st.cards := by
  unfold CardFile.save_to_file
  rcases fp.orElse (fun _ => st.filepath) with _ | p
  · rfl
  · dsimp only
    split
    · rfl
    · rfl

theorem sorted_add (st : CardFile) (now : Timestamp) (title content : String) :
    List.Sorted cardLE ((st.add_card now title content).2).cards := by
  show List.Sorted cardLE (placeCursorAt ((appendCard st _).sort_cards) _).cards
  rw [placeCursorAt_cards]
  exact sorted_sort_cards _

theorem sorted_delete {st : CardFile} (h : List.Sorted cardLE st.cards)
    (index : Option Int) : List.Sorted cardLE ((st.delete_card index).2).cards := by
  unfold CardFile.delete_card
  by_cases hemp : st.cards.isEmpty
  · rw [if_pos hemp]; exact h
  · rw [if_neg hemp]
    by_cases hrange : 0 ≤ index.getD st.current_index ∧
        index.getD st.current_index < (st.cards.length : Int)
    · rw [if_pos hrange]
      dsimp only
      exact List.Pairwise.sublist (List.eraseIdx_sublist st.cards _) h
    · rw [if_neg hrange]; exact h

theorem sorted_dup {st : CardFile} (h : List.Sorted cardLE st.cards)
    (now : Timestamp) (index : Option Int) :
    List.Sorted cardLE ((st.duplicate_card now index).2).cards := by
  unfold CardFile.duplicate_card
  by_cases hemp : st.cards.isEmpty
  · rw [if_pos hemp]; exact h
  · rw [if_neg hemp]
    by_cases hrange : 0 ≤ index.getD st.current_index ∧
        index.getD st.current_index < (st.cards.length : Int)
    · rw [if_pos hrange]
      rcases pyGetElem st.cards (index.getD st.current_index) with _ | original
      · exact h
      · dsimp only
        rw [placeCursorAt_cards]
        exact sorted_sort_cards _
    · rw [if_neg hrange]; exact h

theorem sorted_load {st : CardFile} (h : List.Sorted cardLE st.cards)
    (jp : String → Option JValue) (pi : String → Option Timestamp)
    (now : Timestamp) (fs : String → Option String) (p : String) :
    List.Sorted cardLE ((CardFile.load_from_file jp pi now fs st p).2).cards := by
  rcases load_cases jp pi now fs st p with heq | ⟨cs, _, heq⟩
  · rw [heq]; exact h
  · rw [heq]
    exact sorted_sort_cards _

/-- Every reachable manager state satisfies the cursor-bounds invariant. -/
theorem reachable_cursorOK {st : CardFile} (h : Reachable st) : cursorOK st := by
  induction h with
  | init => exact ⟨fun _ => rfl, fun hne => absurd rfl hne⟩
  | add _ now title content ih => exact cursorOK_add _ now title content
  | delete _ index ih => exact cursorOK_delete ih index
  | dup _ now index ih => exact cursorOK_dup ih now index
  | sort _ ih => exact cursorOK_sort ih
  | navTo _ i ih => exact cursorOK_navTo ih i
  | navNext _ ih => exact cursorOK_navNext ih
  | navPrev _ ih => exact cursorOK_navPrev ih
  | newFile _ ih => exact ⟨fun _ => rfl, fun hne => absurd rfl hne⟩
  | save _ fp ok ih => exact cursorOK_save ih fp ok
  | load _ jp pi now fs p ih => exact cursorOK_load ih jp pi now fs p

/-- Every reachable manager state has its card list sorted by the
case-insensitive title key. -/
theorem reachable_sorted {st : CardFile} (h : Reachable st) :
    List.Sorted cardLE st.cards := by
  induction h with
  | init => exact List.sorted_nil
  | add _ now title content ih => exact sorted_add _ now title content
  | delete _ index ih => exact sorted_delete ih index
  | dup _ now index ih => exact sorted_dup ih now index
  | sort _ ih => exact sorted_sort_cards _
  | navTo _ i ih => rw [(navigate_to_frame _ i).1]; exact ih
  | navNext _ ih => rw [(navigate_next_frame _).1]; exact ih
  | navPrev _ ih => rw [(navigate_previous_frame _).1]; exact ih
  | newFile _ ih => exact List.sorted_nil
  | save _ fp ok ih => rw [save_to_file_cards _ fp ok]; exact ih
  | load _ jp pi now fs p ih => exact sorted_load ih jp pi now fs p

theorem searchAux_cons (q : String) (sc : Bool) (i : Nat) (c : Card) (rest : List Card) :
    searchAux q sc i (c :: rest) =
      if matchesCard q sc c then i :: searchAux q sc (i + 1) rest
      else searchAux q sc (i + 1) rest := by
  have hL : searchAux q sc i (c :: rest) =
      if strContains (pyLower c.title) q then i :: searchAux q sc (i + 1) rest
      else if sc && strContains (pyLower c.content) q then i :: searchAux q sc (i + 1) rest
      else searchAux q sc (i + 1) rest := rfl
  rw [hL]
  unfold matchesCard
  by_cases h1 : strContains (pyLower c.title) q = true
  · rw [if_pos h1, if_pos (by rw [h1, Bool.true_or])]
  · have h1f : strContains (pyLower c.title) q = false := by
      cases h : strContains (pyLower c.title) q
      · rfl
      · exact absurd h h1
    rw [if_neg h1, h1f, Bool.false_or]

theorem mem_searchAux {q : String} {sc : Bool} :
    ∀ {l : List Card} {i j : Nat},
      j ∈ searchAux q sc i l ↔
        ∃ k c, l[k]? = some c ∧ j = i + k ∧ matchesCard q sc c = true := by
  intro l
  induction l with
  | nil => intro i j; simp [searchAux]
  | cons c rest ih =>
    intro i j
    rw [searchAux_cons]
    by_cases hm : matchesCard q sc c
    · rw [if_pos hm]
      rw [List.mem_cons]
      constructor
      · rintro (rfl | hj)
        · exact ⟨0, c, by simp, by omega, hm⟩
        · obtain ⟨k, c', hk, hj', hm'⟩ := ih.mp hj
          exact ⟨k + 1, c', by simpa using hk, by omega, hm'⟩
      · rintro ⟨k, c', hk, rfl, hm'⟩
        cases k with
        | zero => left; omega
        | succ k' =>
          right
          exact ih.mpr ⟨k', c', by simpa using hk, by omega, hm'⟩
    · rw [if_neg hm]
      constructor
      · intro hj
        obtain ⟨k, c', hk, hj', hm'⟩ := ih.mp hj
        exact ⟨k + 1, c', by simpa using hk, by omega, hm'⟩
      · rintro ⟨k, c', hk, rfl, hm'⟩
        cases k with
        | zero =>
          simp only [List.getElem?_cons_zero, Option.some.injEq] at hk
          subst hk
          exact absurd hm' hm
        | succ k' =>
          exact ih.mpr ⟨k', c', by simpa using hk, by omega, hm'⟩

theorem searchAux_sorted (q : String) (sc : Bool) :
    ∀ (l : List Card) (i : Nat), List.Sorted (· < ·) (searchAux q sc i l) := by
  intro l
  induction l with
  | nil => intro i; simp [searchAux]
  | cons c rest ih =>
    intro i
    rw [searchAux_cons]
    by_cases hm : matchesCard q sc c
    · rw [if_pos hm]
      refine List.sorted_cons.mpr ⟨?_, ih (i + 1)⟩
      intro j hj
      obtain ⟨k, c', _, rfl, _⟩ := mem_searchAux.mp hj
      omega
    · rw [if_neg hm]
      exact ih (i + 1)

theorem mem_search {st : CardFile} {q : String} {sc : Bool} {i : Nat} :
    i ∈ st.search q sc ↔
      ∃ c, st.cards[i]? = some c ∧ matchesCard (pyLower q) sc c = true := by
  unfold CardFile.search
  rw [mem_searchAux]
  constructor
  · rintro ⟨k, c, hk, rfl, hm⟩
    exact ⟨c, by simpa using hk, hm⟩
  · rintro ⟨c, hc, hm⟩
    exact ⟨i, c, hc, by omega, hm⟩

theorem search_sorted (st : CardFile) (q : String) (sc : Bool) :
    List.Sorted (· < ·) (st.search q sc) :=
  searchAux_sorted (pyLower q) sc st.cards 0

theorem infixOf_nil : ∀ l : List Char, infixOf [] l = true
  | [] => rfl
  | _ :: _ => rfl

theorem strContains_empty (hay : String) : strContains hay "" = true :=
  infixOf_nil hay.data

theorem matchesCard_empty (sc : Bool) (c : Card) : matchesCard "" sc c = true := by
  unfold matchesCard
  rw [strContains_empty]
  rfl

theorem searchAux_all_match {q : String} {sc : Bool} :
    ∀ (l : List Card) (i : Nat), (∀ c ∈ l, matchesCard q sc c = true) →
      searchAux q sc i l = List.range' i l.length := by
  intro l
  induction l with
  | nil => intro i _; rfl
  | cons c rest ih =>
    intro i hall
    rw [searchAux_cons, if_pos (hall c (List.mem_cons_self c rest))]
    rw [ih (i + 1) (fun x hx => hall x (List.mem_cons_of_mem c hx))]
    rfl

theorem search_empty_query (st : CardFile) (sc : Bool) :
    st.search "" sc = List.range st.cards.length := by
  unfold CardFile.search
  have hlow : pyLower "" = "" := rfl
  rw [hlow, searchAux_all_match st.cards 0 (fun c _ => matchesCard_empty sc c)]
  rw [List.range_eq_range']

theorem find?_min_of_sorted {p : Nat → Bool} :
    ∀ {l : List Nat}, List.Sorted (· < ·) l → ∀ {r : Nat}, l.find? p = some r →
      ∀ j ∈ l, p j = true → r ≤ j := by
  intro l
  induction l with
  | nil => intro _ r hr; cases hr
  | cons x t ih =>
    intro hs r hr j hj hp
    rcases List.sorted_cons.mp hs with ⟨hlt, hst⟩
    by_cases hx : p x = true
    · rw [List.find?_cons_of_pos _ hx] at hr
      injection hr with h
      subst h
      rcases List.mem_cons.mp hj with rfl | hjt
      · exact le_refl j
      · exact le_of_lt (hlt j hjt)
    · rw [List.find?_cons_of_neg _ (by simpa using hx)] at hr
      rcases List.mem_cons.mp hj with rfl | hjt
      · exact absurd hp hx
      · exact ih hst hr j hjt hp

theorem pyGetElem_eq {l : List Card} {i : Int} (h0 : 0 ≤ i)
    (h1 : i < (l.length : Int)) : pyGetElem l i = l[i.toNat]? := by
  have hpy : pyIdx l i = i := by rw [pyIdx, if_neg (by omega)]
  rw [pyGetElem, hpy, if_pos ⟨h0, h1⟩]

theorem current_card_eval {st : CardFile} {Y : List Card} {idx : Nat} {c : Card}
    (hc : st.cards = Y) (hi : st.current_index = (idx : Int))
    (hget : Y[idx]? = some c) : st.current_card = some c := by
  have hlt : idx < Y.length := by
    by_contra hge
    rw [List.getElem?_eq_none (by omega)] at hget
    cases hget
  have hne : ¬ st.cards.isEmpty := by
    rw [hc, List.isEmpty_iff]
    intro h
    rw [h] at hlt
    simp at hlt
  have hbound : st.current_index < (st.cards.length : Int) := by
    rw [hc, hi]
    exact_mod_cast hlt
  have h0 : 0 ≤ st.current_index := by rw [hi]; exact Int.ofNat_nonneg idx
  rw [CardFile.current_card, if_neg hne, pyGetElem_eq h0 hbound, hc, hi]
  simpa using hget

theorem mem_dropWhile_of_neg {p : Char → Bool} {l : List Char} {c : Char}
    (hc : c ∈ l) (hp : p c = false) : c ∈ l.dropWhile p := by
  have hsplit := List.takeWhile_append_dropWhile (p := p) (l := l)
  rcases List.mem_append.mp (hsplit ▸ hc) with h | h
  · exact absurd (List.mem_takeWhile_imp h) (by simp [hp])
  · exact h

theorem trimList_ne_nil {l : List Char} {c : Char} (hc : c ∈ l)
    (hw : c.isWhitespace = false) : trimList l ≠ [] := by
  unfold trimList
  intro h
  have h1 : ((l.dropWhile Char.isWhitespace).reverse.dropWhile Char.isWhitespace) = [] :=
    List.reverse_eq_nil_iff.mp h
  have hmem1 : c ∈ l.dropWhile Char.isWhitespace := mem_dropWhile_of_neg hc hw
  have hmem2 : c ∈ (l.dropWhile Char.isWhitespace).reverse := List.mem_reverse.mpr hmem1
  have hmem3 : c ∈ (l.dropWhile Char.isWhitespace).reverse.dropWhile Char.isWhitespace :=
    mem_dropWhile_of_neg hmem2 hw
  rw [h1] at hmem3
  cases hmem3

theorem coerceTitle_append_copy (t : String) :
    coerceTitle (t ++ " (Copy)") = t ++ " (Copy)" := by
  rw [coerceTitle, if_neg ?hne]
  case hne =>
    intro hcon
    have hdata : trimList (t ++ " (Copy)").data = [] := by
      have := congrArg String.data hcon
      simpa [pyStrip] using this
    have hmem : ')' ∈ (t ++ " (Copy)").data := by
      rw [String.data_append]
      exact List.mem_append_right _ (by decide)
    exact trimList_ne_nil hmem (by decide) hdata

theorem sort_cards_filepath (st : CardFile) : (st.sort_cards).filepath = st.filepath := by
  unfold CardFile.sort_cards
  split
  · rfl
  · cases st.current_card
    · rfl
    · rfl

theorem place_current_card (st : CardFile) (card : Card)
    (huniq : ∀ x ∈ st.cards, cardEq x card = false) :
    (placeCursorAt ((appendCard st card).sort_cards) card).current_card = some card := by
  have hmemX : card ∈ ((appendCard st card).sort_cards).cards :=
    mem_sort_cards.mpr
      (by rw [appendCard_cards]; exact List.mem_append_right _ (List.mem_singleton.mpr rfl))
  have huniqX : ∀ x ∈ ((appendCard st card).sort_cards).cards, cardEq x card = true → x = card := by
    intro x hx hxe
    have hx' : x ∈ st.cards ++ [card] := by
      rw [← appendCard_cards]
      exact mem_sort_cards.mp hx
    rcases List.mem_append.mp hx' with hxs | hxc
    · rw [huniq x hxs] at hxe
      cases hxe
    · exact List.mem_singleton.mp hxc
  exact current_card_eval (placeCursorAt_cards _ _) (placeCursorAt_current_index _ _)
    (getElem?_listIndex hmemX huniqX)

/-- C1: the claim fails on the code.  The construction coercion keeps a
title verbatim whenever its strip is non-empty; it does not strip it.  At
the input `" A "` the produced title is `" A "`, not `" A ".strip() = "A"`. -/
theorem C1_cex : ¬ ((mkCard " A " "" 0 0 0).title = pyStrip " A ") := by decide

/-- C1 (amended): for every title input `t` whose strip is non-empty,
construction keeps the title exactly as passed (unstripped); for every
all-whitespace or empty `t` the title becomes the literal `"Untitled"`. -/
theorem C1_title_construction (t content : String) (created modified : Timestamp)
    (oid : Nat) :
    (pyStrip t ≠ "" → (mkCard t content created modified oid).title = t) ∧
    (pyStrip t = "" → (mkCard t content created modified oid).title = "Untitled") := by
  constructor
  · intro h
    simp [mkCard, coerceTitle, h]
  · intro h
    simp [mkCard, coerceTitle, h]

/-- Witness for `C1_title_construction` at the inputs `"Hello"` and
`"   "`. -/
theorem C1_witness :
    (mkCard "Hello" "" 0 0 0).title = "Hello" ∧
    (mkCard "   " "" 0 0 0).title = "Untitled" :=
  ⟨(C1_title_construction "Hello" "" 0 0 0).1 (by decide),
   (C1_title_construction "   " "" 0 0 0).2 (by decide)⟩

/-- C2: every state reachable from the fresh manager by any sequence of
operations has its card list sorted non-decreasingly by the lower-cased
title key; in particular this holds after every structural mutation
(`add_card`, `delete_card`, `duplicate_card`, `sort_cards`) that
succeeds. -/
theorem C2_sort_invariant (st : CardFile) (h : Reachable st) :
    List.Sorted cardLE st.cards :=
  reachable_sorted h

/-- Witness for `C2_sort_invariant` after two `add_card` mutations. -/
theorem C2_witness :
    List.Sorted cardLE
      (((CardFile.init.add_card 0 "Recipe" "Flour, water").2.add_card
        1 "Budget" "Track expenses").2).cards :=
  C2_sort_invariant _
    (Reachable.add (Reachable.add Reachable.init 0 "Recipe" "Flour, water")
      1 "Budget" "Track expenses")

/-- C4: in every reachable state the cursor is `0` on an empty collection
and otherwise satisfies `0 ≤ currentIndex < len(cards)`. -/
theorem C4_cursor_bounds (st : CardFile) (h : Reachable st) :
    (st.cards = [] → st.current_index = 0) ∧
    (st.cards ≠ [] → 0 ≤ st.current_index ∧ st.current_index < (st.cards.length : Int)) :=
  reachable_cursorOK h

/-- Witness for `C4_cursor_bounds` after two adds and a delete. -/
theorem C4_witness :
    (((((CardFile.init.add_card 0 "B" "x").2.add_card 1 "A" "y").2.delete_card none).2).cards = [] →
      ((((CardFile.init.add_card 0 "B" "x").2.add_card 1 "A" "y").2.delete_card none).2).current_index = 0) ∧
    (((((CardFile.init.add_card 0 "B" "x").2.add_card 1 "A" "y").2.delete_card none).2).cards ≠ [] →
      0 ≤ ((((CardFile.init.add_card 0 "B" "x").2.add_card 1 "A" "y").2.delete_card none).2).current_index ∧
      ((((CardFile.init.add_card 0 "B" "x").2.add_card 1 "A" "y").2.delete_card none).2).current_index <
        (((((CardFile.init.add_card 0 "B" "x").2.add_card 1 "A" "y").2.delete_card none).2).cards.length : Int)) :=
  C4_cursor_bounds _
    (Reachable.delete
      (Reachable.add (Reachable.add Reachable.init 0 "B" "x") 1 "A" "y") none)

/-- C5: whenever a load reports failure (`false`), the whole prior
in-memory state — cards, cursor, path, dirty flag — is returned untouched,
for every behavior of the filesystem, the JSON parser and the timestamp
parser; the embedding is total, modelling that the catch-all `except`
lets no exception escape. -/
theorem C5_load_failure_atomic (jp : String → Option JValue)
    (pi : String → Option Timestamp) (now : Timestamp)
    (fs : String → Option String) (st : CardFile) (p : String)
    (hfail : (CardFile.load_from_file jp pi now fs st p).1 = false) :
    (CardFile.load_from_file jp pi now fs st p).2 = st := by
  rcases load_cases jp pi now fs st p with heq | ⟨cs, _, heq⟩
  · rw [heq]
  · rw [heq] at hfail
    cases hfail

/-- Witness for `C5_load_failure_atomic`: a read failure on a state with a
card, a stored path and a set dirty flag leaves that state untouched. -/
theorem C5_witness :
    (CardFile.load_from_file (fun _ => none) (fun _ => none) 0 (fun _ => none)
      w5st "/nonexistent").2 = w5st :=
  C5_load_failure_atomic (fun _ => none) (fun _ => none) 0 (fun _ => none)
    w5st "/nonexistent" (by decide)

/-- C7: `search` returns a strictly increasing list of indices (hence each
index at most once, in current list order); an index is returned exactly
when the card there matches the lower-cased query in its title, or — when
`searchContent` is true — in its content; the empty query matches every
card; and with `searchContent = false` only title matches are returned. -/
theorem C7_search_semantics (st : CardFile) (q : String) (sc : Bool) :
    List.Sorted (· < ·) (st.search q sc) ∧
    (∀ i : Nat, i ∈ st.search q sc ↔
      ∃ c, st.cards[i]? = some c ∧
        (strContains (pyLower c.title) (pyLower q) = true ∨
          (sc = true ∧ strContains (pyLower c.content) (pyLower q) = true))) ∧
    st.search "" sc = List.range st.cards.length := by
  refine ⟨search_sorted st q sc, ?_, search_empty_query st sc⟩
  intro i
  rw [mem_search]
  constructor
  · rintro ⟨c, hc, hm⟩
    refine ⟨c, hc, ?_⟩
    unfold matchesCard at hm
    simpa [Bool.or_eq_true, Bool.and_eq_true] using hm
  · rintro ⟨c, hc, hm⟩
    refine ⟨c, hc, ?_⟩
    unfold matchesCard
    simpa [Bool.or_eq_true, Bool.and_eq_true] using hm

/-- Witness for `C7_search_semantics`: the empty query on the concrete
five-card state returns every index. -/
theorem C7_witness : c6St.search "" false = List.range c6St.cards.length :=
  (C7_search_semantics c6St "q" false).2.2

/-- C10: the navigation operations change nothing but the cursor (the card
list, path, dirty flag and identity supply are untouched), and the method
bodies of `search` and `find_next` perform no assignment at all, so the
post-state equals the pre-state. -/
theorem C10_frame (st : CardFile) (i : Int) (q : String) (sc : Bool)
    (fromIndex : Int) :
    (((st.navigate_to i).2).cards = st.cards ∧
      ((st.navigate_to i).2).filepath = st.filepath ∧
      ((st.navigate_to i).2).modified = st.modified ∧
      ((st.navigate_to i).2).next_oid = st.next_oid) ∧
    ((st.navigate_next.2).cards = st.cards ∧
      (st.navigate_next.2).filepath = st.filepath ∧
      (st.navigate_next.2).modified = st.modified ∧
      (st.navigate_next.2).next_oid = st.next_oid) ∧
    ((st.navigate_previous.2).cards = st.cards ∧
      (st.navigate_previous.2).filepath = st.filepath ∧
      (st.navigate_previous.2).modified = st.modified ∧
      (st.navigate_previous.2).next_oid = st.next_oid) ∧
    (st.searchM q sc).2 = st ∧
    (st.find_nextM q fromIndex).2 = st :=
  ⟨navigate_to_frame st i, navigate_next_frame st, navigate_previous_frame st, rfl, rfl⟩

/-- C3: the claim fails on the code.  `list.index` looks the current card
up by dataclass equality `==`, not by identity: in the reachable state
`c3St` (a loaded file with two field-identical records, cursor on the
second), `sort_cards` re-locates the cursor to the FIRST field-equal card,
a different object (`oid 0`) from the one that was current (`oid 1`). -/
theorem C3_cex :
    Reachable c3St ∧
    c3St.current_card = some c3card1 ∧
    c3St.sort_cards.current_card = some c3card0 ∧
    c3card0 ≠ c3card1 := by
  refine ⟨?_, by decide, by decide, by decide⟩
  exact Reachable.navTo (Reachable.load Reachable.init c3jp c3pi 0 c3fs "/f") 1

/-- C3 (amended): `sort_cards` re-locates the cursor to the first card of
the sorted list comparing `==` (field equality) to the previously current
card — which is that very card whenever no distinct card in the list
compares equal to it; and after `add_card` or `duplicate_card` succeeds the
cursor is at the new card's post-sort position whenever no pre-existing
card compares equal to the new card. -/
theorem C3_cursor_tracking :
    (∀ (st : CardFile) (c : Card), st.current_card = some c →
      (∀ x ∈ st.cards, cardEq x c = true → x = c) →
      st.sort_cards.current_card = some c) ∧
    (∀ (st : CardFile) (now : Timestamp) (title content : String),
      (∀ x ∈ st.cards, cardEq x (st.add_card now title content).1 = false) →
      ((st.add_card now title content).2).current_card =
        some (st.add_card now title content).1) ∧
    (∀ (st : CardFile) (now : Timestamp) (index : Option Int) (card : Card)
      (st2 : CardFile), st.duplicate_card now index = (some card, st2) →
      (∀ x ∈ st.cards, cardEq x card = false) →
      st2.current_card = some card) := by
  refine ⟨?_, ?_, ?_⟩
  · intro st c hcc huniq
    have hne : st.cards ≠ [] := by
      intro hnil
      rw [CardFile.current_card, if_pos (by simp [hnil])] at hcc
      cases hcc
    have hcmem : c ∈ st.cards := mem_of_current_card hcc
    have hcmem' : c ∈ List.insertionSort cardLE st.cards :=
      (List.mem_insertionSort cardLE).mpr hcmem
    have huniq' : ∀ x ∈ List.insertionSort cardLE st.cards, cardEq x c = true → x = c :=
      fun x hx => huniq x ((List.mem_insertionSort cardLE).mp hx)
    exact current_card_eval (sort_cards_cards st hne) (current_index_sort_cards hcc)
      (getElem?_listIndex hcmem' huniq')
  · intro st now title content huniq
    exact place_current_card st _ huniq
  · intro st now index card st2 hEq huniq
    rw [CardFile.duplicate_card] at hEq
    by_cases hemp : st.cards.isEmpty
    · rw [if_pos hemp] at hEq
      simp at hEq
    · rw [if_neg hemp] at hEq
      by_cases hrange : 0 ≤ index.getD st.current_index ∧
          index.getD st.current_index < (st.cards.length : Int)
      · rw [if_pos hrange] at hEq
        have hlt : (index.getD st.current_index).toNat < st.cards.length := by omega
        rw [pyGetElem_eq hrange.1 hrange.2, List.getElem?_eq_getElem hlt] at hEq
        dsimp only at hEq
        rw [Prod.mk.injEq] at hEq
        obtain ⟨h1, h2⟩ := hEq
        injection h1 with h1
        subst h1
        subst h2
        exact place_current_card st _ huniq
      · rw [if_neg hrange] at hEq
        simp at hEq

/-- Witness for `C3_cursor_tracking` (add part) on the empty manager. -/
theorem C3_witness :
    ((CardFile.init.add_card 0 "B" "b").2).current_card =
      some (CardFile.init.add_card 0 "B" "b").1 :=
  C3_cursor_tracking.2.1 CardFile.init 0 "B" "b" (by decide)

/-- C6: `find_next` runs `search` with content search included; when it
returns `none` there are no matches at all; when it returns `r`, `r` is a
match and is either the least match strictly above `fromIndex`, or — when
every match is `≤ fromIndex` (wrap-around) — the least match overall. -/
theorem C6_find_next_semantics (st : CardFile) (q : String) (fromIndex : Int) :
    match st.find_next q fromIndex with
    | none => st.search q true = []
    | some r =>
      r ∈ st.search q true ∧
      ((fromIndex < (r : Int) ∧
          ∀ j ∈ st.search q true, fromIndex < (j : Int) → r ≤ j) ∨
        ((r : Int) ≤ fromIndex ∧
          (∀ j ∈ st.search q true, (j : Int) ≤ fromIndex) ∧
          ∀ j ∈ st.search q true, r ≤ j)) := by
  have hsorted := search_sorted st q true
  have hfe : st.find_next q fromIndex =
      match (st.search q true).find? (fun idx => decide (fromIndex < Int.ofNat idx)) with
      | some idx => some idx
      | none => (st.search q true).find? (fun idx => decide (Int.ofNat idx ≤ fromIndex)) := rfl
  rw [hfe]
  rcases h1 : (st.search q true).find? (fun idx => decide (fromIndex < Int.ofNat idx))
    with _ | r
  · dsimp only
    rcases h2 : (st.search q true).find? (fun idx => decide (Int.ofNat idx ≤ fromIndex))
      with _ | r
    · dsimp only
      cases hres : st.search q true with
      | nil => rfl
      | cons x t =>
        exfalso
        have hx1 := List.find?_eq_none.mp h1 x (by rw [hres]; exact List.mem_cons_self x t)
        have hx2 := List.find?_eq_none.mp h2 x (by rw [hres]; exact List.mem_cons_self x t)
        simp at hx1 hx2
        omega
    · dsimp only
      refine ⟨List.mem_of_find?_eq_some h2, Or.inr ⟨?_, ?_, ?_⟩⟩
      · simpa using List.find?_some h2
      · intro j hj
        have hx := List.find?_eq_none.mp h1 j hj
        simp at hx
        omega
      · intro j hj
        have hx := List.find?_eq_none.mp h1 j hj
        simp at hx
        exact find?_min_of_sorted hsorted h2 j hj (by simp; omega)
  · dsimp only
    refine ⟨List.mem_of_find?_eq_some h1, Or.inl ⟨?_, ?_⟩⟩
    · simpa using List.find?_some h1
    · intro j hj hjgt
      exact find?_min_of_sorted hsorted h1 j hj (by simpa using hjgt)

/-- Witness for `C6_find_next_semantics`: matches at `[1, 4]` with
`fromIndex = 4` yield `1`. -/
theorem C6_witness :
    c6St.find_next "zz" 4 = some 1 ∧ 1 ∈ c6St.search "zz" true := by
  have h := C6_find_next_semantics c6St "zz" 4
  have heq : c6St.find_next "zz" 4 = some 1 := by decide
  rw [heq] at h
  exact ⟨heq, h.1⟩

/-- C8: the claim fails on the code at the cursor clause.  In the
reachable state `c8St` (a loaded file holding `"Idea"` and a card
`"Idea (Copy)"` whose timestamps equal the clock at duplication time),
duplicating `"Idea"` creates and returns the new card (`oid 2`) but leaves
the cursor on the pre-existing field-equal card (`oid 1`), because
`list.index` finds the first card comparing `==` to the duplicate. -/
theorem C8_cex :
    Reachable c8St ∧
    (c8St.duplicate_card 5 none).1 = some c8New ∧
    ((c8St.duplicate_card 5 none).2).current_card = some c8Old ∧
    c8Old ≠ c8New := by
  refine ⟨?_, by decide, by decide, by decide⟩
  exact Reachable.load Reachable.init c8jp c8pi 0 c8fs "/f"

/-- C8 (amended): on an empty collection or an out-of-range target,
`duplicate_card` returns nothing and is a no-op; on success it returns a
new card whose title is the original's followed by `" (Copy)"`, with the
original's content and both timestamps fresh (`now`); the resulting list
is the sorted permutation of the old list plus the new card; the dirty
flag is set, the path unchanged; and the cursor lands on the duplicate
whenever no pre-existing card compares `==` to it (otherwise on the first
card comparing equal). -/
theorem C8_duplicate :
    (∀ (st : CardFile) (now : Timestamp) (index : Option Int),
      (((st.duplicate_card now index).1 = none) ↔
        (st.cards = [] ∨ ¬(0 ≤ index.getD st.current_index ∧
          index.getD st.current_index < (st.cards.length : Int)))) ∧
      ((st.duplicate_card now index).1 = none →
        (st.duplicate_card now index).2 = st)) ∧
    (∀ (st : CardFile) (now : Timestamp) (index : Option Int) (card : Card)
      (st2 : CardFile), st.duplicate_card now index = (some card, st2) →
      ∃ original, pyGetElem st.cards (index.getD st.current_index) = some original ∧
        card.title = original.title ++ " (Copy)" ∧
        card.content = original.content ∧
        card.created = now ∧ card.modified = now ∧
        st2.cards.Perm (st.cards ++ [card]) ∧
        List.Sorted cardLE st2.cards ∧
        st2.modified = true ∧
        st2.filepath = st.filepath ∧
        ((∀ x ∈ st.cards, cardEq x card = false) →
          st2.current_card = some card)) := by
  constructor
  · intro st now index
    rw [CardFile.duplicate_card]
    by_cases hemp : st.cards.isEmpty
    · rw [if_pos hemp]
      exact ⟨⟨fun _ => Or.inl (List.isEmpty_iff.mp hemp), fun _ => rfl⟩, fun _ => rfl⟩
    · rw [if_neg hemp]
      by_cases hrange : 0 ≤ index.getD st.current_index ∧
          index.getD st.current_index < (st.cards.length : Int)
      · rw [if_pos hrange]
        have hlt : (index.getD st.current_index).toNat < st.cards.length := by omega
        rw [pyGetElem_eq hrange.1 hrange.2, List.getElem?_eq_getElem hlt]
        dsimp only
        constructor
        · constructor
          · intro hcon; cases hcon
          · rintro (hnil | hr)
            · exact absurd hnil (by simpa [List.isEmpty_iff] using hemp)
            · exact absurd hrange hr
        · intro hcon; cases hcon
      · rw [if_neg hrange]
        exact ⟨⟨fun _ => Or.inr hrange, fun _ => rfl⟩, fun _ => rfl⟩
  · intro st now index card st2 hEq
    rw [CardFile.duplicate_card] at hEq
    by_cases hemp : st.cards.isEmpty
    · rw [if_pos hemp] at hEq
      simp at hEq
    · rw [if_neg hemp] at hEq
      by_cases hrange : 0 ≤ index.getD st.current_index ∧
          index.getD st.current_index < (st.cards.length : Int)
      · rw [if_pos hrange] at hEq
        have hlt : (index.getD st.current_index).toNat < st.cards.length := by omega
        rw [pyGetElem_eq hrange.1 hrange.2, List.getElem?_eq_getElem hlt] at hEq
        dsimp only at hEq
        rw [Prod.mk.injEq] at hEq
        obtain ⟨h1, h2⟩ := hEq
        injection h1 with h1
        subst h1
        subst h2
        refine ⟨st.cards[(index.getD st.current_index).toNat], ?_, ?_, rfl, rfl, rfl,
          ?_, ?_, rfl, ?_, ?_⟩
        · rw [pyGetElem_eq hrange.1 hrange.2, List.getElem?_eq_getElem hlt]
        · exact coerceTitle_append_copy _
        · rw [placeCursorAt_cards, sort_cards_cards _ (by simp [appendCard_cards]),
            appendCard_cards]
          exact List.perm_insertionSort cardLE _
        · rw [placeCursorAt_cards]
          exact sorted_sort_cards _
        · show ((appendCard st _).sort_cards).filepath = st.filepath
          rw [sort_cards_filepath]
          rfl
        · intro huniq
          exact place_current_card st _ huniq
      · rw [if_neg hrange] at hEq
        simp at hEq

/-- Witness for `C8_duplicate` (success part): duplicating the one card
`"Idea"` of `w8st`. -/
theorem C8_witness :
    ∃ original,
      pyGetElem w8st.cards ((none : Option Int).getD w8st.current_index) = some original ∧
      w8card.title = original.title ++ " (Copy)" ∧
      w8card.content = original.content ∧
      w8card.created = 1 ∧ w8card.modified = 1 ∧
      ((w8st.duplicate_card 1 none).2).cards.Perm (w8st.cards ++ [w8card]) ∧
      List.Sorted cardLE ((w8st.duplicate_card 1 none).2).cards ∧
      ((w8st.duplicate_card 1 none).2).modified = true ∧
      ((w8st.duplicate_card 1 none).2).filepath = w8st.filepath ∧
      ((∀ x ∈ w8st.cards, cardEq x w8card = false) →
        ((w8st.duplicate_card 1 none).2).current_card = some w8card) :=
  C8_duplicate.2 w8st 1 none w8card ((w8st.duplicate_card 1 none).2) (by decide)

/-- C9: deserializing the record serialized from a card reproduces its
title, content and both timestamps, for every formatter/parser pair that
are mutually inverse (as `datetime.isoformat` / `fromisoformat` are on the
values the code produces), and every card whose title respects the
constructor invariant (strip non-empty). -/
theorem C9_round_trip (isoF : Timestamp → String)
    (parseIso : String → Option Timestamp)
    (hinv : ∀ t, parseIso (isoF t) = some t) (c : Card)
    (hwf : pyStrip c.title ≠ "") (now : Timestamp) (oid : Nat) :
    ∃ c2, Card.from_dict parseIso now oid (c.to_dict isoF) = some c2 ∧
      c2.title = c.title ∧ c2.content = c.content ∧
      c2.created = c.created ∧ c2.modified = c.modified := by
  have hstep : Card.from_dict parseIso now oid (c.to_dict isoF) =
      (match parseIso (isoF c.created) with
        | none => none
        | some created =>
          match parseIso (isoF c.modified) with
          | none => none
          | some modified => some (mkCard c.title c.content created modified oid)) := rfl
  rw [hstep, hinv, hinv]
  refine ⟨mkCard c.title c.content c.created c.modified oid, rfl, ?_, rfl, rfl, rfl⟩
  simp [mkCard, coerceTitle, hwf]

/-- Witness for `C9_round_trip` at the card `w9card` with the concrete
inverse pair `w9iso` / `w9parse`. -/
theorem C9_witness :
    ∃ c2, Card.from_dict w9parse 0 0 (w9card.to_dict w9iso) = some c2 ∧
      c2.title = w9card.title ∧ c2.content = w9card.content ∧
      c2.created = w9card.created ∧ c2.modified = w9card.modified :=
  C9_round_trip w9iso w9parse (fun t => by simp [w9iso, w9parse]) w9card (by decide) 0 0

end CardfileModel
